import Mathlib

/-!
Shallow embedding of `src/packages/realtime/src/subscription-manager.ts`
(the `SubscriptionManager` class and its helper `createSubscriptionManager`).

Modelling decisions, all taken from the source:

* The manager's fields become a Lean structure `Manager`.  The handles
  `this.subscription` and `this.reader` are only ever tested for null-ness
  and assigned, so they are embedded as booleans recording whether the
  handle is currently held (true = non-null).
* The external collaborators (the credential provider `refreshToken`, the
  stream factory `subscribe`, `getReader`, and the stream's `read()`
  results) are supplied by an environment record `Env`: each awaited call
  either succeeds or throws, and each `read()` yields a value, `done`, or
  a thrown error.
* User callbacks may throw.  A record `CB` says, per invocation argument,
  whether the callback throws.  Every call site in the source wraps the
  callback in try/catch and logs, so a throw only produces a log entry;
  the embedding records every attempted invocation as an `Event` and adds
  an `Event.log` when the callback throws (the `console.error` call).
* Cancellation of the reader and of the stream inside `stop()` may throw;
  `stop` takes two booleans saying whether each cancellation throws.
* JavaScript `arr.slice(-k)` keeps the last `k` elements when `k >= 1`
  and returns the whole array when `k = 0`; `sliceLast` models exactly
  that.  The constructor default `options.maxMessages || 1000` maps a
  missing or zero capacity to 1000 (JS truthiness).
* Aliasing of the internal message array (the spread copy in
  `getMessages` versus the live `this.messages` passed to `onChange`)
  cannot be seen with Lean's value semantics, so a second, store-based
  embedding of the same lines lives in the `RefModel` namespace: arrays
  are cells of an arena and the manager holds the index of its current
  array, exactly mirroring JS reference semantics of `push`, `slice` and
  the spread copy.
-/

/-- Error values carried by thrown exceptions; the source only ever
creates and forwards `Error` objects, so a string message suffices. -/
abbrev Err := String

/-- Opaque subscription token; the manager never inspects it. -/
abbrev Token := Nat

/-- A received realtime message: the source filters on `value.topic` and
stores the value; we give messages a topic and an integer payload. -/
structure Msg where
  topic : String
  payload : Int
deriving DecidableEq, Repr

/-- The `SubscriptionState` enum of the source. -/
inductive SubState where
  | idle
  | connecting
  | active
  | error
  | closed
deriving DecidableEq, Repr

/-- Observable callback events: every attempted callback invocation, plus
`log` for each `console.error` executed when a callback or a cancellation
throws, plus `warn` for the `console.warn` in the re-entrant `start`. -/
inductive Event where
  | stateChange (s : SubState)
  | change (v : Msg) (allMessages : List Msg)
  | errorCb (e : Err)
  | stopCb
  | warn
  | log
deriving DecidableEq, Repr

/-- Which callback invocations throw (the manager catches all of them). -/
structure CB where
  onChangeT : Msg → List Msg → Bool
  onStateChangeT : SubState → Bool
  onErrorT : Err → Bool
  onStopT : Bool

/-- The callback behaviour in which no handler ever throws. -/
def pureCB : CB :=
  ⟨fun _ _ => false, fun _ => false, fun _ => false, false⟩

/-- The callback behaviour in which every handler always throws. -/
def throwCB : CB :=
  ⟨fun _ _ => true, fun _ => true, fun _ => true, true⟩

/-- Outcome of one awaited `reader.read()`. -/
inductive ReadResult where
  | val (v : Msg)
  | done
  | fail (e : Err)
deriving DecidableEq, Repr

/-- Results of the awaited external calls made during `start` and the
stream read results, i.e. the behaviour of the external collaborators. -/
structure Env where
  refreshRes : Except Err Token
  subscribeRes : Except Err Unit
  readerRes : Except Err Unit
  reads : List ReadResult

/-- The mutable fields of a `SubscriptionManager` instance.  The handles
`subscription` and `reader` record non-null-ness; the optional callbacks
are recorded by presence flags (`onChange` is required, hence no flag). -/
structure Manager where
  token : Option Token
  hasRefresh : Bool
  topic : Option String
  state : SubState
  messages : List Msg
  maxMessages : Nat
  subscription : Bool
  reader : Bool
  isRunning : Bool
  hasOnStateChange : Bool
  hasOnError : Bool
  hasOnStop : Bool
deriving DecidableEq, Repr

/-- Constructor options record (`SubscriptionManagerOptions`). -/
structure Options where
  token : Option Token
  hasRefresh : Bool
  topic : Option String
  maxMessages : Option Nat
  hasOnStateChange : Bool
  hasOnError : Bool
  hasOnStop : Bool
  autoStart : Option Bool
deriving DecidableEq, Repr

/-- The constructor body: field initialisation, with the JS-truthiness
default `options.maxMessages || 1000` (so an explicit 0 also maps to
1000).  The un-awaited `this.start()` fired when `autoStart !== false` is
a `start` call interleaved after construction; in the transition system
below it is the `startStep` act. -/
def mkManager (o : Options) : Manager :=
  { token := o.token
    hasRefresh := o.hasRefresh
    topic := o.topic
    state := SubState.idle
    messages := []
    maxMessages :=
      match o.maxMessages with
      | some n => if n = 0 then 1000 else n
      | none => 1000
    subscription := false
    reader := false
    isRunning := false
    hasOnStateChange := o.hasOnStateChange
    hasOnError := o.hasOnError
    hasOnStop := o.hasOnStop }

/-- JS `arr.slice(-k)`: the last `k` elements for `k >= 1`, and the whole
array for `k = 0` (since `slice(-0)` is `slice(0)`). -/
def sliceLast (k : Nat) (l : List Msg) : List Msg :=
  if k = 0 then l else l.drop (l.length - k)

/-- Lines 255-263: `this.messages.push(value)` followed by the trim
`this.messages = this.messages.slice(-this.maxMessages)` when the length
exceeds `maxMessages`. -/
def appendTrim (maxMessages : Nat) (l : List Msg) (v : Msg) : List Msg :=
  let l1 := l ++ [v]
  if maxMessages < l1.length then sliceLast maxMessages l1 else l1

/-- Private `updateState`: set the state, then fire `onStateChange` (when
provided) under try/catch, logging a throw. -/
def updateState (m : Manager) (cb : CB) (s : SubState) :
    Manager × List Event :=
  ({ m with state := s },
    if m.hasOnStateChange then
      Event.stateChange s :: (if cb.onStateChangeT s then [Event.log] else [])
    else [])

/-- Private `handleError`: transition to `Error`, then fire `onError`
(when provided) under try/catch, logging a throw. -/
def handleError (m : Manager) (cb : CB) (e : Err) : Manager × List Event :=
  let r := updateState m cb SubState.error
  (r.1,
    r.2 ++
      (if r.1.hasOnError then
        Event.errorCb e :: (if cb.onErrorT e then [Event.log] else [])
      else []))

/-- Line 251: `if (this.topic && value.topic !== this.topic) continue`.
JS truthiness makes an empty-string topic an inactive filter. -/
def topicMismatch (m : Manager) (v : Msg) : Bool :=
  match m.topic with
  | some t => (decide (t ≠ "")) && (decide (v.topic ≠ t))
  | none => false

/-- The attempted `onChange` invocation with the new message and the
current `this.messages` (the live buffer), under try/catch. -/
def invokeOnChange (m : Manager) (cb : CB) (v : Msg) : List Event :=
  Event.change v m.messages ::
    (if cb.onChangeT v m.messages then [Event.log] else [])

/-- One resolution of the awaited `reader.read()` inside the read loop
(lines 244-273 and the loop-exit handling at 276-284): the
`done || !isRunning` break followed by the post-loop `Closed` transition,
the thrown-read path routed through the catch (suppressed when no longer
running), and the filter/append/trim/`onChange` body for a value.  The
returned boolean says whether the loop goes on to await the next read. -/
def readStepF (m : Manager) (cb : CB) (r : ReadResult) :
    Manager × List Event × Bool :=
  match r with
  | ReadResult.fail e =>
      if m.isRunning then
        let h := handleError m cb e
        (h.1, h.2, false)
      else (m, [], false)
  | ReadResult.done =>
      if m.isRunning then
        let u := updateState m cb SubState.closed
        (u.1, u.2, false)
      else (m, [], false)
  | ReadResult.val v =>
      if !m.isRunning then (m, [], false)
      else if topicMismatch m v then (m, [], true)
      else
        let m1 := { m with messages := appendTrim m.maxMessages m.messages v }
        (m1, invokeOnChange m1 cb v, true)

/-- The read loop consuming a list of read results in order, stopping
after a result on which the loop exits; when the list runs out with the
loop still going, the loop is simply still awaiting its next read (the
manager is returned as currently observable). -/
def runReads (m : Manager) (cb : CB) : List ReadResult → Manager × List Event
  | [] => (m, [])
  | r :: rest =>
      let s := readStepF m cb r
      if s.2.2 then
        let t := runReads s.1 cb rest
        (t.1, s.2.1 ++ t.2)
      else (s.1, s.2.1)

/-- The message of the `Error` thrown when `start` finds no token and no
provider. -/
def noTokenErr : Err :=
  "No token provided and no refreshToken function available"

/-- The message of the `Error` thrown synchronously by
`refreshAndRestart` when no provider is configured. -/
def noRefreshErr : Err := "No refreshToken function available"

/-- The acquisition phase of `start` (lines 103-131 up to entering the
read loop): the re-entrancy guard, the optional token fetch, the
no-token throw, stream and reader acquisition, the `Active` transition,
and the `if (!this.reader) return` guard of `readLoop`.  Every throw is
routed to `handleError` by the surrounding catch.  The boolean reports
whether the read loop was entered. -/
def startAcqF (m : Manager) (cb : CB) (env : Env) :
    Manager × List Event × Bool :=
  if m.isRunning then (m, [Event.warn], false)
  else
    let m0 := { m with isRunning := true }
    let fetch : (Manager × List Event) ⊕ (Manager × List Event × Err) :=
      match m0.token, m0.hasRefresh with
      | none, true =>
          let u := updateState m0 cb SubState.connecting
          match env.refreshRes with
          | Except.ok t => Sum.inl ({ u.1 with token := some t }, u.2)
          | Except.error e => Sum.inr (u.1, u.2, e)
      | _, _ => Sum.inl (m0, [])
    match fetch with
    | Sum.inr f =>
        let h := handleError f.1 cb f.2.2
        (h.1, f.2.1 ++ h.2, false)
    | Sum.inl f =>
        match f.1.token with
        | none =>
            let h := handleError f.1 cb noTokenErr
            (h.1, f.2 ++ h.2, false)
        | some _ =>
            let u := updateState f.1 cb SubState.connecting
            match env.subscribeRes with
            | Except.error e =>
                let h := handleError u.1 cb e
                (h.1, f.2 ++ u.2 ++ h.2, false)
            | Except.ok _ =>
                let m3 := { u.1 with subscription := true }
                match env.readerRes with
                | Except.error e =>
                    let h := handleError m3 cb e
                    (h.1, f.2 ++ u.2 ++ h.2, false)
                | Except.ok _ =>
                    let m4 := { m3 with reader := true }
                    let a := updateState m4 cb SubState.active
                    (a.1, f.2 ++ u.2 ++ a.2, a.1.reader)

/-- The full `start()` call run to quiescence: acquisition, then the read
loop over the environment's read results.  It is a total function: every
internal throw is caught (`handleError`), so `start` never rejects. -/
def start (m : Manager) (cb : CB) (env : Env) : Manager × List Event :=
  let a := startAcqF m cb env
  if a.2.2 then
    let l := runReads a.1 cb env.reads
    (l.1, a.2.1 ++ l.2)
  else (a.1, a.2.1)

/-- The `stop()` body (lines 140-168).  `c1` / `c2` say whether
cancellation of the reader (cancel or releaseLock) respectively of the
stream throws; a throw jumps to the outer catch, which only logs — so the
remaining clean-up, the `Closed` transition and `onStop` are skipped.
`stop` itself always completes normally. -/
def stop (m : Manager) (cb : CB) (c1 c2 : Bool) : Manager × List Event :=
  let m0 := { m with isRunning := false }
  if m0.reader && c1 then (m0, [Event.log])
  else
    let m1 := { m0 with reader := false }
    if m1.subscription && c2 then (m1, [Event.log])
    else
      let m2 := { m1 with subscription := false }
      let u := updateState m2 cb SubState.closed
      (u.1,
        u.2 ++
          (if u.1.hasOnStop then
            Event.stopCb :: (if cb.onStopT then [Event.log] else [])
          else []))

/-- `restart()`: `stop`, clear the message log, `start`. -/
def restart (m : Manager) (cb : CB) (env : Env) (c1 c2 : Bool) :
    Manager × List Event :=
  let s := stop m cb c1 c2
  let m2 := { s.1 with messages := [] }
  let t := start m2 cb env
  (t.1, s.2 ++ t.2)

/-- `refreshAndRestart()`: throws (Except.error) only on the missing
provider; a rejected token fetch is caught and routed to `handleError`,
the call resolving normally. -/
def refreshAndRestart (m : Manager) (cb : CB) (env : Env) (c1 c2 : Bool) :
    Except Err (Manager × List Event) :=
  if !m.hasRefresh then Except.error noRefreshErr
  else
    match env.refreshRes with
    | Except.ok t => Except.ok (restart { m with token := some t } cb env c1 c2)
    | Except.error e => Except.ok (handleError m cb e)

/-- `getMessages()` returns `[...this.messages]`; under value semantics
this is the contents (the aliasing story is in `RefModel`). -/
def getMessages (m : Manager) : List Msg := m.messages

/-- `getLatestMessage()`: last element of the log, or null. -/
def getLatestMessage (m : Manager) : Option Msg := m.messages.getLast?

/-- `getState()`. -/
def getState (m : Manager) : SubState := m.state

/-- `clearMessages()`. -/
def clearMessages (m : Manager) : Manager := { m with messages := [] }

/-- `setTopic(topic)`. -/
def setTopic (m : Manager) (t : Option String) : Manager :=
  { m with topic := t }

/-- `isActive()`: running and in the `Active` state. -/
def isActive (m : Manager) : Bool :=
  m.isRunning && (decide (m.state = SubState.active))

/-- Helper: the errors handed to `onError` among a list of events. -/
def errorsOf (evs : List Event) : List Err :=
  evs.filterMap fun e =>
    match e with
    | Event.errorCb x => some x
    | _ => none

/-- Helper: the messages handed to `onChange` among a list of events. -/
def changesOf (evs : List Event) : List Msg :=
  evs.filterMap fun e =>
    match e with
    | Event.change v _ => some v
    | _ => none

/-- Helper: how often `onStop` was invoked. -/
def stopCount (evs : List Event) : Nat :=
  evs.countP fun e => decide (e = Event.stopCb)

/-- Helper: how often `onStateChange` was invoked with state `s`. -/
def stateChangeCount (evs : List Event) (s : SubState) : Nat :=
  evs.countP fun e => decide (e = Event.stateChange s)

/-! The interleaved transition system.  The only suspension points inside
the read loop are the awaited `read()` calls, so a concurrent `stop` (or
any other lifecycle call) interleaves with the loop exactly at read
granularity; lifecycle calls themselves are taken as atomic, which is the
serialization of lifecycle calls the spec demands of callers.  `restart`
and `refreshAndRestart` are compositions of the acts below (`stopStep`,
`clearStep`, `setTokenStep`, `startStep`, `readStep`), so reachability
under them is covered. -/

/-- The whole system: the manager plus the number of read-loop tasks
currently awaiting a read (a second `start` after a `stop` can leave an
old loop pending alongside the new one). -/
structure Sys where
  mgr : Manager
  loops : Nat
deriving DecidableEq, Repr

/-- Effect of a `start()` call on the system: the acquisition phase runs
atomically; on success a read loop becomes pending. -/
def applyStart (cb : CB) (s : Sys) (env : Env) : Sys :=
  let a := startAcqF s.mgr cb env
  ⟨a.1, s.loops + (if a.2.2 then 1 else 0)⟩

/-- Effect of one read resolution on the system. -/
def applyRead (cb : CB) (s : Sys) (r : ReadResult) : Sys :=
  let a := readStepF s.mgr cb r
  ⟨a.1, if a.2.2 then s.loops else s.loops - 1⟩

/-- Effect of a `stop()` call on the system. -/
def applyStop (cb : CB) (s : Sys) (c1 c2 : Bool) : Sys :=
  ⟨(stop s.mgr cb c1 c2).1, s.loops⟩

/-- States reachable from a freshly constructed manager by interleaving
lifecycle calls and read-loop resolutions.  When `allowThrow` is false,
only runs in which the cancellations inside `stop` never throw are
admitted. -/
inductive Reach (allowThrow : Bool) (cb : CB) (o : Options) : Sys → Prop where
  | init : Reach allowThrow cb o ⟨mkManager o, 0⟩
  | startStep (s : Sys) (env : Env) :
      Reach allowThrow cb o s → Reach allowThrow cb o (applyStart cb s env)
  | readStep (s : Sys) (r : ReadResult) :
      Reach allowThrow cb o s → 0 < s.loops →
      Reach allowThrow cb o (applyRead cb s r)
  | stopStep (s : Sys) (c1 c2 : Bool) :
      Reach allowThrow cb o s →
      (allowThrow = true ∨ (c1 = false ∧ c2 = false)) →
      Reach allowThrow cb o (applyStop cb s c1 c2)
  | clearStep (s : Sys) :
      Reach allowThrow cb o s →
      Reach allowThrow cb o ⟨clearMessages s.mgr, s.loops⟩
  | setTopicStep (s : Sys) (t : Option String) :
      Reach allowThrow cb o s →
      Reach allowThrow cb o ⟨setTopic s.mgr t, s.loops⟩
  | setTokenStep (s : Sys) (t : Token) :
      Reach allowThrow cb o s →
      Reach allowThrow cb o ⟨{ s.mgr with token := some t }, s.loops⟩

/-- The spec's data-model invariant: `Active` implies both handles held
and the running flag set. -/
def ActiveInv (m : Manager) : Prop :=
  m.state = SubState.active →
    m.subscription = true ∧ m.reader = true ∧ m.isRunning = true

/-! A store-based embedding of the buffer-exposure lines, making JS
reference semantics explicit: `Store` is an arena of arrays, a manager
holds the index (`msgs`) of its current `this.messages` array.  `push`
mutates the array in place (same cell), `slice` allocates a fresh cell,
the spread copy in `getMessages` allocates a fresh cell, and `onChange`
receives whatever cell `this.messages` designates at invocation time. -/

namespace RefModel

/-- Arena of arrays; a reference is an index into the arena. -/
structure Store where
  arrays : List (List Msg)
deriving DecidableEq, Repr

/-- Dereference. -/
def Store.get (s : Store) (r : Nat) : List Msg :=
  (s.arrays[r]?).getD []

/-- In-place mutation of the array a reference designates. -/
def Store.set (s : Store) (r : Nat) (v : List Msg) : Store :=
  ⟨s.arrays.set r v⟩

/-- Allocation of a fresh array. -/
def Store.alloc (s : Store) (v : List Msg) : Store × Nat :=
  (⟨s.arrays ++ [v]⟩, s.arrays.length)

/-- The fields of the manager that the buffer lines touch. -/
structure RMgr where
  msgs : Nat
  maxMessages : Nat
deriving DecidableEq, Repr

/-- Lines 205-207: `getMessages` returns `[...this.messages]` — a fresh
array holding a copy of the current contents. -/
def getMessagesR (m : RMgr) (s : Store) : Store × Nat :=
  s.alloc (s.get m.msgs)

/-- Lines 255-270 for an accepted message: `push` mutates in place, the
trim `this.messages = this.messages.slice(-max)` allocates a fresh array
and redirects the field, and `onChange` is handed `this.messages` — the
returned reference is the one passed as `allMessages`. -/
def acceptMsg (m : RMgr) (s : Store) (v : Msg) : RMgr × Store × Nat :=
  let s1 := s.set m.msgs (s.get m.msgs ++ [v])
  let cur := s1.get m.msgs
  if m.maxMessages < cur.length then
    let a := s1.alloc (sliceLast m.maxMessages cur)
    ({ m with msgs := a.2 }, a.1, a.2)
  else (m, s1, m.msgs)

end RefModel

/-! Concrete inputs shared by the scenario theorems below. -/

/-- A never-throwing callback behaviour. -/
def cb0 : CB := pureCB

/-- Baseline options: an initial token, all optional callbacks supplied,
no autostart, default capacity. -/
def optsB : Options :=
  { token := some 1
    hasRefresh := false
    topic := none
    maxMessages := none
    hasOnStateChange := true
    hasOnError := true
    hasOnStop := true
    autoStart := some false }

/-- An environment in which every acquisition succeeds and no read ever
resolves. -/
def envOk : Env :=
  { refreshRes := Except.ok 2
    subscribeRes := Except.ok ()
    readerRes := Except.ok ()
    reads := [] }

/-- A manager that has completed acquisition: `Active`, running, both
handles held, read loop pending. -/
def mAct : Manager := (startAcqF (mkManager optsB) cb0 envOk).1

/-- The spec scenario messages. -/
def msgA : Msg := ⟨"t", 1⟩

/-- Second scenario message. -/
def msgB : Msg := ⟨"t", 2⟩

/-- Third scenario message. -/
def msgC : Msg := ⟨"t", 3⟩

/-- The rejection reason used in the failing-credential scenarios. -/
def errDenied : Err := "denied"

/-- Options with no token and a credential provider. -/
def optsRF : Options := { optsB with token := none, hasRefresh := true }

/-- Environment whose credential fetch rejects. -/
def envRF : Env := { envOk with refreshRes := Except.error errDenied }

/-- A manager on which the error path has run: `start` failed at the
credential fetch. -/
def mErr : Manager := (start (mkManager optsRF) cb0 envRF).1

/-- The claim `C10` - confirmed: a zero (or missing) `maxMessages` is falsy
in `options.maxMessages || 1000`, so the effective capacity is 1000,
never 0 - a zero capacity cannot be configured. -/
theorem c10_zero_capacity_defaults :
    (∀ o : Options, o.maxMessages = some 0 → (mkManager o).maxMessages = 1000) ∧
    (∀ o : Options, o.maxMessages = none → (mkManager o).maxMessages = 1000) ∧
    (∀ o : Options, (mkManager o).maxMessages ≠ 0) := by
  refine ⟨fun o h => by simp [mkManager, h], fun o h => by simp [mkManager, h], ?_⟩
  intro o
  simp only [mkManager]
  cases h : o.maxMessages with
  | none => simp
  | some n =>
      by_cases hn : n = 0 <;> simp [hn]

/-- Witness for `c10_zero_capacity_defaults` at concrete options. -/
theorem c10_zero_capacity_defaults_witness :
    (mkManager { optsB with maxMessages := some 0 }).maxMessages = 1000 ∧
    (mkManager optsB).maxMessages ≠ 0 :=
  ⟨c10_zero_capacity_defaults.1 { optsB with maxMessages := some 0 } rfl,
   c10_zero_capacity_defaults.2.2 optsB⟩

/-- The claim `C1` - counterexample: on an `Active` manager whose reader
cancellation throws, `stop()` returns normally but leaves the reader
reference set, does not transition to `Closed`, and never invokes
`onStop` — contradicting the claim that these happen even when
cancellation throws. -/
theorem c1_stop_counterexample :
    (stop mAct cb0 true false).1.reader = true ∧
    (stop mAct cb0 true false).1.state ≠ SubState.closed ∧
    stopCount (stop mAct cb0 true false).2 = 0 := by decide

/-- The claim `C1` - amended: `stop()` never throws (it is total and always
clears the running flag), and when neither cancellation throws it clears
both handles, transitions to `Closed`, invokes `onStop` exactly once
(when configured), and a second `stop` in a row is equally safe and
leaves the same cleared `Closed` state; when a cancellation throws, the
error is swallowed but the remaining clean-up, the transition and the
`onStop` notification are skipped. -/
theorem c1_stop_amended (m : Manager) (cb : CB) :
    ((stop m cb false false).1.reader = false ∧
     (stop m cb false false).1.subscription = false ∧
     (stop m cb false false).1.state = SubState.closed ∧
     (stop m cb false false).1.isRunning = false) ∧
    (m.hasOnStop = true → stopCount (stop m cb false false).2 = 1) ∧
    ((stop (stop m cb false false).1 cb false false).1.state = SubState.closed ∧
     (stop (stop m cb false false).1 cb false false).1.reader = false ∧
     (stop (stop m cb false false).1 cb false false).1.subscription = false) ∧
    (∀ c1 c2, (stop m cb c1 c2).1.isRunning = false) := by
  refine ⟨by simp [stop, updateState], ?_, by simp [stop, updateState], ?_⟩
  · intro h
    simp [stop, updateState, stopCount, h, List.countP_cons]
    split <;> split <;> simp [List.countP_cons]
  · intro c1 c2
    simp only [stop]
    split
    · simp
    · split
      · simp
      · simp [updateState]

/-- Witness for `c1_stop_amended` on the concrete `Active` manager. -/
theorem c1_stop_amended_witness :
    mAct.hasOnStop = true ∧ stopCount (stop mAct cb0 false false).2 = 1 :=
  ⟨by decide, (c1_stop_amended mAct cb0).2.1 (by decide)⟩

/-! List lemmas for the bounded FIFO buffer. -/

/-- The last `k` elements of a list. -/
def lastN (k : Nat) (l : List Msg) : List Msg := l.drop (l.length - k)

/-- A list short enough is its own `lastN`. -/
theorem lastN_of_le {k : Nat} {l : List Msg} (h : l.length ≤ k) :
    lastN k l = l := by
  simp [lastN, Nat.sub_eq_zero_of_le h]

/-- Length of `lastN`. -/
theorem length_lastN (k : Nat) (l : List Msg) :
    (lastN k l).length = min k l.length := by
  simp only [lastN, List.length_drop]
  omega

/-- When the right part is long enough, `lastN` ignores the left part. -/
theorem lastN_append_right {k : Nat} (x : List Msg) {ms : List Msg}
    (h : k ≤ ms.length) : lastN k (x ++ ms) = lastN k ms := by
  simp only [lastN, List.length_append]
  have h1 : x.length + ms.length - k = x.length + (ms.length - k) := by omega
  rw [h1, List.drop_append]

/-- Splitting `lastN` over an append. -/
theorem lastN_append (k : Nat) (y ms : List Msg) :
    lastN k (y ++ ms) = lastN (k - ms.length) y ++ lastN k ms := by
  rcases le_or_lt k ms.length with h | h
  · rw [lastN_append_right _ h, Nat.sub_eq_zero_of_le h]
    simp [lastN, List.drop_length]
  · simp only [lastN, List.length_append]
    rw [List.drop_append_of_le_length (by omega)]
    rw [show ms.length - k = 0 from by omega, List.drop_zero]
    congr 2
    omega

/-- Iterated `lastN` keeps the smaller suffix. -/
theorem lastN_lastN {j k : Nat} (h : j ≤ k) (x : List Msg) :
    lastN j (lastN k x) = lastN j x := by
  simp only [lastN, List.length_drop, List.drop_drop]
  congr 1
  omega

/-- Truncating the left part to its last `k` elements does not change the
last `k` elements of the concatenation. -/
theorem lastN_lastN_append (k : Nat) (x ms : List Msg) :
    lastN k (lastN k x ++ ms) = lastN k (x ++ ms) := by
  rw [lastN_append, lastN_append, lastN_lastN (Nat.sub_le k ms.length)]

/-- With a positive capacity, one push-and-trim step keeps exactly the
last `max` elements of the extended log. -/
theorem appendTrim_eq_lastN {max : Nat} (hm : 1 ≤ max) (l : List Msg)
    (v : Msg) : appendTrim max l v = lastN max (l ++ [v]) := by
  simp only [appendTrim, sliceLast]
  split
  · rw [if_neg (by omega)]
    rfl
  · rename_i h
    exact (lastN_of_le (by omega)).symm

/-- With a positive capacity, the log never exceeds the capacity after a
push-and-trim step. -/
theorem appendTrim_length_le {max : Nat} (hm : 1 ≤ max) (l : List Msg)
    (v : Msg) : (appendTrim max l v).length ≤ max := by
  rw [appendTrim_eq_lastN hm, length_lastN]
  omega

/-- Folding push-and-trim over arriving messages keeps exactly the last
`max` of everything seen. -/
theorem foldl_appendTrim {max : Nat} (hm : 1 ≤ max) :
    ∀ (ms l : List Msg), l.length ≤ max →
      ms.foldl (appendTrim max) l = lastN max (l ++ ms)
  | [], l, h => by
      simpa using (lastN_of_le h).symm
  | v :: ms, l, h => by
      rw [List.foldl_cons,
        foldl_appendTrim hm ms (appendTrim max l v) (appendTrim_length_le hm l v),
        appendTrim_eq_lastN hm, lastN_lastN_append]
      simp

/-- In a running manager with no topic filter, consuming a list of value
reads accumulates exactly the push-and-trim fold of those messages. -/
theorem runReads_vals (cb : CB) :
    ∀ (ms : List Msg) (m : Manager), m.isRunning = true → m.topic = none →
      (runReads m cb (ms.map ReadResult.val)).1 =
        { m with messages := ms.foldl (appendTrim m.maxMessages) m.messages }
  | [], m, hr, ht => by simp [runReads]
  | v :: ms, m, hr, ht => by
      simp only [List.map_cons, runReads, readStepF, hr, topicMismatch, ht,
        Bool.not_true, Bool.false_eq_true, if_false, if_true, List.foldl_cons]
      exact runReads_vals cb ms _ rfl rfl

/-- Options with capacity 2 for the eviction scenario. -/
def optsC4 : Options := { optsB with maxMessages := some 2 }

/-- Environment delivering the three scenario messages in order. -/
def envABC : Env :=
  { envOk with
      reads := [ReadResult.val msgA, ReadResult.val msgB, ReadResult.val msgC] }

/-- The claim `C4` - confirmed: for every sequence of accepted messages the log
is exactly the most recent `maxMessages` of them in arrival order (hence
at most `maxMessages` entries, FIFO eviction of the oldest); and in the
concrete scenario with capacity 2 and messages A, B, C, `getMessages`
yields `[B, C]` and `getLatestMessage` yields `C`. -/
theorem c4_bounded_fifo_buffer :
    (∀ (cb : CB) (m : Manager) (ms : List Msg),
      m.isRunning = true → m.topic = none → m.messages = [] →
      1 ≤ m.maxMessages →
      getMessages (runReads m cb (ms.map ReadResult.val)).1 =
        ms.drop (ms.length - m.maxMessages) ∧
      (getMessages (runReads m cb (ms.map ReadResult.val)).1).length ≤
        m.maxMessages) ∧
    getMessages (start (mkManager optsC4) cb0 envABC).1 = [msgB, msgC] ∧
    getLatestMessage (start (mkManager optsC4) cb0 envABC).1 = some msgC := by
  refine ⟨?_, by decide, by decide⟩
  intro cb m ms hr ht hm hcap
  have h1 : (runReads m cb (ms.map ReadResult.val)).1 =
      { m with messages := ms.foldl (appendTrim m.maxMessages) m.messages } :=
    runReads_vals cb ms m hr ht
  have h2 : ms.foldl (appendTrim m.maxMessages) m.messages = lastN m.maxMessages ms := by
    rw [foldl_appendTrim hcap ms m.messages (by rw [hm]; simp), hm]
    simp
  constructor
  · rw [getMessages, h1]
    simp only []
    rw [h2]
    rfl
  · rw [getMessages, h1]
    simp only []
    rw [h2, length_lastN]
    omega

/-- Witness for the universal part of `c4_bounded_fifo_buffer` on the
concrete `Active` manager fed one message. -/
theorem c4_bounded_fifo_buffer_witness :
    getMessages (runReads mAct cb0 ([msgA].map ReadResult.val)).1 =
      [msgA].drop ([msgA].length - mAct.maxMessages) :=
  (c4_bounded_fifo_buffer.1 cb0 mAct [msgA] (by decide) (by decide)
    (by decide) (by decide)).1

/-- The topic used by the filtering scenario. -/
def topicX : String := "x"

/-- Options with the scenario topic filter. -/
def optsC6 : Options := { optsB with topic := some topicX }

/-- Environment delivering the filtering-scenario messages. -/
def envC6 : Env :=
  { envOk with
      reads := [ReadResult.val ⟨"x", 1⟩, ReadResult.val ⟨"y", 2⟩,
        ReadResult.val ⟨"x", 3⟩] }

/-- The claim `C6` - confirmed: with an active topic filter, a running manager
hit by a message of a different topic is left completely unchanged and no
`onChange` fires (the loop just continues); and in the concrete scenario
with topic "x" and arrivals (x,1), (y,2), (x,3), the log is exactly
[(x,1), (x,3)] and `onChange` fired exactly twice. -/
theorem c6_topic_filter :
    (∀ (m : Manager) (cb : CB) (v : Msg) (t : String),
      m.topic = some t → t ≠ "" → v.topic ≠ t → m.isRunning = true →
      readStepF m cb (ReadResult.val v) = (m, [], true)) ∧
    getMessages (start (mkManager optsC6) cb0 envC6).1 =
      [⟨"x", 1⟩, ⟨"x", 3⟩] ∧
    changesOf (start (mkManager optsC6) cb0 envC6).2 =
      [⟨"x", 1⟩, ⟨"x", 3⟩] ∧
    ((start (mkManager optsC6) cb0 envC6).2.countP fun e =>
      match e with
      | Event.change _ _ => true
      | _ => false) = 2 := by
  refine ⟨?_, by decide, by decide, by decide⟩
  intro m cb v t ht hne hvt hr
  have hmis : topicMismatch m v = true := by
    simp [topicMismatch, ht, hne, hvt]
  simp [readStepF, hr, hmis]

/-- Witness for the universal part of `c6_topic_filter` at a concrete
mismatching message. -/
theorem c6_topic_filter_witness :
    readStepF (setTopic mAct (some topicX)) cb0 (ReadResult.val ⟨"y", 2⟩) =
      (setTopic mAct (some topicX), [], true) :=
  c6_topic_filter.1 (setTopic mAct (some topicX)) cb0 ⟨"y", 2⟩ topicX
    (by decide) (by decide) (by decide) (by decide)

/-! Event bookkeeping lemmas. -/

/-- `errorsOf` distributes over append. -/
theorem errorsOf_append (a b : List Event) :
    errorsOf (a ++ b) = errorsOf a ++ errorsOf b := by
  simp [errorsOf]

/-- `changesOf` distributes over append. -/
theorem changesOf_append (a b : List Event) :
    changesOf (a ++ b) = changesOf a ++ changesOf b := by
  simp [changesOf]

/-- A state transition invokes no `onError`. -/
theorem errorsOf_updateState (m : Manager) (cb : CB) (s : SubState) :
    errorsOf (updateState m cb s).2 = [] := by
  cases h1 : m.hasOnStateChange <;> cases h2 : cb.onStateChangeT s <;>
    simp [updateState, errorsOf, h1, h2]

/-- A state transition invokes no `onChange`. -/
theorem changesOf_updateState (m : Manager) (cb : CB) (s : SubState) :
    changesOf (updateState m cb s).2 = [] := by
  cases h1 : m.hasOnStateChange <;> cases h2 : cb.onStateChangeT s <;>
    simp [updateState, changesOf, h1, h2]

/-- The error path invokes `onError` exactly once, with the causing
error, when the handler is configured. -/
theorem errorsOf_handleError (m : Manager) (cb : CB) (e : Err)
    (h : m.hasOnError = true) : errorsOf (handleError m cb e).2 = [e] := by
  cases h2 : cb.onErrorT e <;> cases h3 : m.hasOnStateChange <;>
    cases h4 : cb.onStateChangeT SubState.error <;>
    simp [handleError, errorsOf, h, h2, h3, h4, updateState]

/-- The error path invokes no `onChange`. -/
theorem changesOf_handleError (m : Manager) (cb : CB) (e : Err) :
    changesOf (handleError m cb e).2 = [] := by
  cases h1 : m.hasOnError <;> cases h2 : cb.onErrorT e <;>
    cases h3 : m.hasOnStateChange <;>
    cases h4 : cb.onStateChangeT SubState.error <;>
    simp [handleError, changesOf, h1, h2, h3, h4, updateState]

/-- The error path always lands in the `Error` state. -/
theorem handleError_state (m : Manager) (cb : CB) (e : Err) :
    (handleError m cb e).1.state = SubState.error := by
  simp [handleError, updateState]

/-- The error path touches only the state field. -/
theorem handleError_fields (m : Manager) (cb : CB) (e : Err) :
    (handleError m cb e).1 = { m with state := SubState.error } := by
  simp [handleError, updateState]

/-- A value read never invokes `onError` and preserves running flag,
state, handles and capacity. -/
theorem readStepF_val_fields (m : Manager) (cb : CB) (v : Msg) :
    (readStepF m cb (ReadResult.val v)).1.isRunning = m.isRunning ∧
    (readStepF m cb (ReadResult.val v)).1.state = m.state ∧
    (readStepF m cb (ReadResult.val v)).1.topic = m.topic ∧
    errorsOf (readStepF m cb (ReadResult.val v)).2.1 = [] := by
  by_cases hr : m.isRunning
  · by_cases hm : topicMismatch m v
    · simp [readStepF, hr, hm, errorsOf]
    · cases ht : cb.onChangeT v (appendTrim m.maxMessages m.messages v) <;>
        simp [readStepF, hr, hm, invokeOnChange, errorsOf, ht]
  · simp [readStepF, Bool.of_not_eq_true hr, errorsOf]

/-- Unfolding one continuing iteration of the read loop. -/
theorem runReads_cons_cont (m : Manager) (cb : CB) (r : ReadResult)
    (rest : List ReadResult) (h : (readStepF m cb r).2.2 = true) :
    runReads m cb (r :: rest) =
      ((runReads (readStepF m cb r).1 cb rest).1,
        (readStepF m cb r).2.1 ++ (runReads (readStepF m cb r).1 cb rest).2) := by
  simp [runReads, h]

/-- A value read while running continues the loop. -/
theorem readStepF_val_cont (m : Manager) (cb : CB) (v : Msg)
    (hr : m.isRunning = true) :
    (readStepF m cb (ReadResult.val v)).2.2 = true := by
  by_cases hm : topicMismatch m v <;> simp [readStepF, hr, hm]

/-- A `done` read while running ends the loop in the `Closed` state with
the `onStateChange` events of that single transition. -/
theorem runReads_done (m : Manager) (cb : CB) (hr : m.isRunning = true) :
    runReads m cb [ReadResult.done] = updateState m cb SubState.closed := by
  simp [runReads, readStepF, hr]

/-- The claim `C8` - confirmed: when the stream signals completion while the
manager is still running (after any number of delivered messages), the
final state is `Closed` and `onError` is never invoked. -/
theorem c8_clean_close (m : Manager) (cb : CB) (vs : List Msg)
    (hr : m.isRunning = true) :
    (runReads m cb (vs.map ReadResult.val ++ [ReadResult.done])).1.state =
      SubState.closed ∧
    errorsOf (runReads m cb (vs.map ReadResult.val ++ [ReadResult.done])).2 =
      [] := by
  induction vs generalizing m with
  | nil =>
      rw [List.map_nil, List.nil_append, runReads_done m cb hr]
      exact ⟨rfl, errorsOf_updateState m cb SubState.closed⟩
  | cons v vs ih =>
      rw [List.map_cons, List.cons_append,
        runReads_cons_cont m cb _ _ (readStepF_val_cont m cb v hr)]
      have hf := readStepF_val_fields m cb v
      have hM : (readStepF m cb (ReadResult.val v)).1.isRunning = true :=
        hf.1.trans hr
      refine ⟨(ih _ hM).1, ?_⟩
      rw [errorsOf_append, (ih _ hM).2, hf.2.2.2]
      rfl

/-- Witness for `c8_clean_close` on the concrete `Active` manager. -/
theorem c8_clean_close_witness :
    (runReads mAct cb0 ([msgA].map ReadResult.val ++ [ReadResult.done])).1.state =
      SubState.closed :=
  (c8_clean_close mAct cb0 [msgA] (by decide)).1

/-- When the acquisition phase does not enter the read loop, `start` is
exactly the acquisition phase. -/
theorem start_not_entered (m : Manager) (cb : CB) (env : Env)
    (h : (startAcqF m cb env).2.2 = false) :
    start m cb env = ((startAcqF m cb env).1, (startAcqF m cb env).2.1) := by
  simp [start, h]

/-- The claim `C5` - confirmed: failing credential fetch, stream open, reader
acquisition, or first read are never thrown to the caller of `start` or
`refreshAndRestart` (both resolve normally - `start` is total and
`refreshAndRestart` answers `Except.ok`); each failure becomes a
transition to `Error` plus exactly one `onError` invocation carrying the
causing error, and a rejected credential fetch never invokes
`onChange`. -/
theorem c5_failures_routed_to_error :
    (∀ (m : Manager) (cb : CB) (env : Env) (e : Err),
      m.isRunning = false → m.hasOnError = true → m.token = none →
      m.hasRefresh = true → env.refreshRes = Except.error e →
      (start m cb env).1.state = SubState.error ∧
      errorsOf (start m cb env).2 = [e] ∧
      changesOf (start m cb env).2 = []) ∧
    (∀ (m : Manager) (cb : CB) (env : Env) (e : Err) (t : Token),
      m.isRunning = false → m.hasOnError = true → m.token = some t →
      env.subscribeRes = Except.error e →
      (start m cb env).1.state = SubState.error ∧
      errorsOf (start m cb env).2 = [e]) ∧
    (∀ (m : Manager) (cb : CB) (env : Env) (e : Err) (t : Token),
      m.isRunning = false → m.hasOnError = true → m.token = some t →
      env.subscribeRes = Except.ok () → env.readerRes = Except.error e →
      (start m cb env).1.state = SubState.error ∧
      errorsOf (start m cb env).2 = [e]) ∧
    (∀ (m : Manager) (cb : CB) (env : Env) (e : Err) (t : Token),
      m.isRunning = false → m.hasOnError = true → m.token = some t →
      env.subscribeRes = Except.ok () → env.readerRes = Except.ok () →
      env.reads = [ReadResult.fail e] →
      (start m cb env).1.state = SubState.error ∧
      errorsOf (start m cb env).2 = [e]) ∧
    (∀ (m : Manager) (cb : CB) (env : Env) (e : Err) (c1 c2 : Bool),
      m.hasRefresh = true → m.hasOnError = true →
      env.refreshRes = Except.error e →
      ∃ r, refreshAndRestart m cb env c1 c2 = Except.ok r ∧
        r.1.state = SubState.error ∧ errorsOf r.2 = [e]) := by
  refine ⟨?_, ?_, ?_, ?_, ?_⟩
  · intro m cb env e hr hoe ht hrf he
    have hA : startAcqF m cb env =
        ((handleError
            (updateState { m with isRunning := true } cb SubState.connecting).1
            cb e).1,
          (updateState { m with isRunning := true } cb SubState.connecting).2 ++
            (handleError
              (updateState { m with isRunning := true } cb
                SubState.connecting).1 cb e).2,
          false) := by
      simp [startAcqF, hr, ht, hrf, he]
    rw [start_not_entered m cb env (by rw [hA])]
    rw [hA]
    refine ⟨handleError_state _ cb e, ?_, ?_⟩
    · rw [errorsOf_append, errorsOf_updateState,
        errorsOf_handleError _ cb e (by simp [updateState, hoe])]
      rfl
    · rw [changesOf_append, changesOf_updateState, changesOf_handleError]
      rfl
  · intro m cb env e t hr hoe ht he
    have hA : startAcqF m cb env =
        ((handleError
            (updateState { m with isRunning := true } cb SubState.connecting).1
            cb e).1,
          (updateState { m with isRunning := true } cb SubState.connecting).2 ++
            (handleError
              (updateState { m with isRunning := true } cb
                SubState.connecting).1 cb e).2,
          false) := by
      simp [startAcqF, hr, ht, he]
    rw [start_not_entered m cb env (by rw [hA])]
    rw [hA]
    refine ⟨handleError_state _ cb e, ?_⟩
    rw [errorsOf_append, errorsOf_updateState,
      errorsOf_handleError _ cb e (by simp [updateState, hoe])]
    rfl
  · intro m cb env e t hr hoe ht hs he
    have hA : startAcqF m cb env =
        ((handleError
            { (updateState { m with isRunning := true } cb
                SubState.connecting).1 with subscription := true } cb e).1,
          (updateState { m with isRunning := true } cb SubState.connecting).2 ++
            (handleError
              { (updateState { m with isRunning := true } cb
                  SubState.connecting).1 with subscription := true } cb e).2,
          false) := by
      simp [startAcqF, hr, ht, hs, he]
    rw [start_not_entered m cb env (by rw [hA])]
    rw [hA]
    refine ⟨handleError_state _ cb e, ?_⟩
    rw [errorsOf_append, errorsOf_updateState,
      errorsOf_handleError _ cb e (by simp [updateState, hoe])]
    rfl
  · intro m cb env e t hr hoe ht hs hread hreads
    have hrun : ∀ x : Manager, x.isRunning = true →
        runReads x cb [ReadResult.fail e] = handleError x cb e := by
      intro x hx
      simp [runReads, readStepF, hx]
    have hA : startAcqF m cb env =
        ((updateState
            { (updateState { m with isRunning := true } cb
                SubState.connecting).1 with
                subscription := true, reader := true } cb SubState.active).1,
          (updateState { m with isRunning := true } cb SubState.connecting).2 ++
            (updateState
              { (updateState { m with isRunning := true } cb
                  SubState.connecting).1 with
                  subscription := true, reader := true } cb SubState.active).2,
          true) := by
      simp [startAcqF, hr, ht, hs, hread, updateState]
    have hGo : start m cb env =
        ((runReads (startAcqF m cb env).1 cb env.reads).1,
          (startAcqF m cb env).2.1 ++
            (runReads (startAcqF m cb env).1 cb env.reads).2) := by
      simp [start, hA]
    rw [hGo, hreads, hrun (startAcqF m cb env).1 (by rw [hA]; simp [updateState])]
    refine ⟨handleError_state _ cb e, ?_⟩
    rw [errorsOf_append,
      errorsOf_handleError _ cb e (by rw [hA]; simp [updateState, hoe])]
    rw [hA]
    rw [errorsOf_append, errorsOf_updateState, errorsOf_updateState]
    rfl
  · intro m cb env e c1 c2 hrf hoe he
    refine ⟨handleError m cb e, ?_, handleError_state m cb e,
      errorsOf_handleError m cb e hoe⟩
    simp [refreshAndRestart, hrf, he]

/-- Witness for `c5_failures_routed_to_error` on the concrete rejected
credential fetch. -/
theorem c5_failures_routed_to_error_witness :
    (start (mkManager optsRF) cb0 envRF).1.state = SubState.error ∧
    errorsOf (start (mkManager optsRF) cb0 envRF).2 = [errDenied] ∧
    changesOf (start (mkManager optsRF) cb0 envRF).2 = [] :=
  c5_failures_routed_to_error.1 (mkManager optsRF) cb0 envRF errDenied
    (by decide) (by decide) (by decide) (by decide) rfl

/-- Unfolding one terminating iteration of the read loop. -/
theorem runReads_cons_stop (m : Manager) (cb : CB) (r : ReadResult)
    (rest : List ReadResult) (h : (readStepF m cb r).2.2 = false) :
    runReads m cb (r :: rest) =
      ((readStepF m cb r).1, (readStepF m cb r).2.1) := by
  simp [runReads, h]

/-- The manager produced by one read step does not depend on which
callbacks throw, and neither does whether the loop continues. -/
theorem readStepF_cb_indep (m : Manager) (cb : CB) (r : ReadResult) :
    (readStepF m cb r).1 = (readStepF m pureCB r).1 ∧
    (readStepF m cb r).2.2 = (readStepF m pureCB r).2.2 := by
  cases r with
  | fail e =>
      cases hr : m.isRunning <;>
        simp [readStepF, hr, handleError, updateState]
  | done => cases hr : m.isRunning <;> simp [readStepF, hr, updateState]
  | val v =>
      cases hr : m.isRunning <;> by_cases hm : topicMismatch m v <;>
        simp [readStepF, hr, hm]

/-- The manager produced by the whole read loop does not depend on which
callbacks throw. -/
theorem runReads_cb_indep (cb : CB) :
    ∀ (reads : List ReadResult) (m : Manager),
      (runReads m cb reads).1 = (runReads m pureCB reads).1
  | [], _ => rfl
  | r :: rest, m => by
      have h := readStepF_cb_indep m cb r
      cases hc : (readStepF m pureCB r).2.2 with
      | false =>
          rw [runReads_cons_stop m cb r rest (h.2.trans hc),
            runReads_cons_stop m pureCB r rest hc]
          exact h.1
      | true =>
          rw [runReads_cons_cont m cb r rest (h.2.trans hc),
            runReads_cons_cont m pureCB r rest hc]
          simp only []
          rw [h.1]
          exact runReads_cb_indep cb rest _

/-- Read steps never touch the running flag. -/
theorem readStepF_isRunning (m : Manager) (cb : CB) (r : ReadResult) :
    (readStepF m cb r).1.isRunning = m.isRunning := by
  cases r with
  | fail e =>
      cases hr : m.isRunning <;>
        simp [readStepF, hr, handleError, updateState]
  | done => cases hr : m.isRunning <;> simp [readStepF, hr, updateState]
  | val v =>
      cases hr : m.isRunning <;> by_cases hm : topicMismatch m v <;>
        simp [readStepF, hr, hm]

/-- The read loop never touches the running flag. -/
theorem runReads_isRunning (cb : CB) :
    ∀ (reads : List ReadResult) (m : Manager),
      (runReads m cb reads).1.isRunning = m.isRunning
  | [], _ => rfl
  | r :: rest, m => by
      cases hc : (readStepF m cb r).2.2 with
      | false =>
          rw [runReads_cons_stop m cb r rest hc]
          exact readStepF_isRunning m cb r
      | true =>
          rw [runReads_cons_cont m cb r rest hc]
          simp only []
          rw [runReads_isRunning cb rest _, readStepF_isRunning]

/-- On a non-running manager, the acquisition phase of `start` always
leaves the running flag set, whatever the environment does. -/
theorem startAcqF_isRunning (m : Manager) (cb : CB) (env : Env)
    (hr : m.isRunning = false) :
    (startAcqF m cb env).1.isRunning = true := by
  cases ht : m.token <;> cases hrf : m.hasRefresh <;>
    cases he : env.refreshRes <;> cases hs : env.subscribeRes <;>
    cases hread : env.readerRes <;>
    simp [startAcqF, hr, ht, hrf, he, hs, hread, handleError, updateState]

/-- A `start` on a manager that believes itself running is a warned
no-op. -/
theorem start_warned (m : Manager) (cb : CB) (env : Env)
    (hr : m.isRunning = true) : start m cb env = (m, [Event.warn]) := by
  simp [start, startAcqF, hr]

/-- Environment delivering two scenario messages. -/
def envAB : Env :=
  { envOk with reads := [ReadResult.val msgA, ReadResult.val msgB] }

/-- The claim `C7` - confirmed: a throwing `onChange`, `onError`,
`onStateChange` or `onStop` handler is caught at its call site and never
aborts the surrounding operation: the manager reached by a state
transition, by the read loop, by `stop`, and by the error path is the
same as with never-throwing handlers; every transition sets the new state
and attempts `onStateChange` exactly once with it; `stop` still attempts
`onStop` exactly once; and with always-throwing handlers the loop still
processes every subsequent message. -/
theorem c7_callback_isolation :
    (∀ (m : Manager) (cb : CB) (s : SubState),
      (updateState m cb s).1 = (updateState m pureCB s).1 ∧
      (updateState m cb s).1.state = s ∧
      (m.hasOnStateChange = true →
        stateChangeCount (updateState m cb s).2 s = 1)) ∧
    (∀ (m : Manager) (cb : CB) (reads : List ReadResult),
      (runReads m cb reads).1 = (runReads m pureCB reads).1) ∧
    (∀ (m : Manager) (cb : CB) (c1 c2 : Bool),
      (stop m cb c1 c2).1 = (stop m pureCB c1 c2).1 ∧
      (m.hasOnStop = true → stopCount (stop m cb false false).2 = 1)) ∧
    (∀ (m : Manager) (cb : CB) (e : Err),
      (handleError m cb e).1 = (handleError m pureCB e).1) ∧
    (getMessages (start (mkManager optsB) throwCB envAB).1 = [msgA, msgB] ∧
      changesOf (start (mkManager optsB) throwCB envAB).2 = [msgA, msgB]) := by
  refine ⟨?_, fun m cb reads => runReads_cb_indep cb reads m, ?_, ?_,
    by decide, by decide⟩
  · intro m cb s
    refine ⟨rfl, rfl, ?_⟩
    intro h
    cases h2 : cb.onStateChangeT s <;>
      simp [updateState, stateChangeCount, h, h2, List.countP_cons]
  · intro m cb c1 c2
    constructor
    · cases hr : m.reader <;> cases hs : m.subscription <;> cases c1 <;>
        cases c2 <;> simp [stop, hr, hs, updateState]
    · intro h
      simp [stop, updateState, stopCount, h, List.countP_cons]
      split <;> split <;> simp [List.countP_cons]
  · intro m cb e
    simp [handleError, updateState]

/-- Witness for `c7_callback_isolation` at the always-throwing behaviour
on a concrete transition. -/
theorem c7_callback_isolation_witness :
    mAct.hasOnStateChange = true ∧
    stateChangeCount (updateState mAct throwCB SubState.closed).2
      SubState.closed = 1 :=
  ⟨by decide,
    (c7_callback_isolation.1 mAct throwCB SubState.closed).2.2 (by decide)⟩

/-- The claim `C9` - confirmed: the error path never clears the running flag,
so after a failed `start` the manager is in `Error` with
`isRunning = true`; a subsequent plain `start()` is a warned no-op that
changes nothing and attempts no reconnection, while `restart()` (which
goes through `stop`) does recover to `Active`. -/
theorem c9_error_requires_restart :
    (∀ (m : Manager) (cb : CB) (e : Err),
      (handleError m cb e).1.isRunning = m.isRunning) ∧
    (∀ (m : Manager) (cb : CB) (env : Env), m.isRunning = false →
      (start m cb env).1.isRunning = true) ∧
    (∀ (m : Manager) (cb : CB) (env : Env), m.isRunning = true →
      start m cb env = (m, [Event.warn])) ∧
    (mErr.isRunning = true ∧ mErr.state = SubState.error ∧
      (∀ env : Env, start mErr cb0 env = (mErr, [Event.warn])) ∧
      (restart mErr cb0 envOk false false).1.state = SubState.active ∧
      isActive (restart mErr cb0 envOk false false).1 = true) := by
  have h2 : ∀ (m : Manager) (cb : CB) (env : Env), m.isRunning = false →
      (start m cb env).1.isRunning = true := by
    intro m cb env hr
    have h1 := startAcqF_isRunning m cb env hr
    cases hent : (startAcqF m cb env).2.2 with
    | false => simpa [start, hent] using h1
    | true =>
        simp only [start, hent, if_true]
        rw [runReads_isRunning]
        exact h1
  refine ⟨fun m cb e => rfl, h2, fun m cb env hr => start_warned m cb env hr,
    by decide, by decide, fun env => start_warned mErr cb0 env (by decide),
    by decide, by decide⟩

/-- Witness for `c9_error_requires_restart` on the concrete failed
manager. -/
theorem c9_error_requires_restart_witness :
    (start mErr cb0 envOk).1.isRunning = true ∧
    (start { mErr with isRunning := false } cb0 envOk).1.isRunning = true :=
  ⟨by rw [c9_error_requires_restart.2.2.1 mErr cb0 envOk (by decide)]; decide,
    c9_error_requires_restart.2.1 { mErr with isRunning := false } cb0 envOk
      (by decide)⟩

section

open RefModel

/-- A manager whose `this.messages` is cell 0 of the arena. -/
def rm0 : RMgr := ⟨0, 1000⟩

/-- An arena holding the single, initially empty, message array. -/
def rs0 : Store := ⟨[[]]⟩

/-- The claim `C2` - counterexample: after one accepted message the internal
log holds that message, the array handed to `onChange` is the internal
array itself (same reference), and mutating that array (here: emptying
it) changes the manager's internal message log — refuting the claim that
mutating an array passed to `onChange` never changes internal state. -/
theorem c2_live_buffer_counterexample :
    Store.get (acceptMsg rm0 rs0 msgA).2.1 (acceptMsg rm0 rs0 msgA).1.msgs =
      [msgA] ∧
    (acceptMsg rm0 rs0 msgA).2.2 = (acceptMsg rm0 rs0 msgA).1.msgs ∧
    Store.get
      (Store.set (acceptMsg rm0 rs0 msgA).2.1 (acceptMsg rm0 rs0 msgA).2.2 [])
      (acceptMsg rm0 rs0 msgA).1.msgs = [] := by
  decide

/-- The claim `C2` - amended: `getMessages()` really is a defensive copy — it
returns a freshly allocated array with the same contents, and mutating
the returned array leaves the internal log untouched; but the
`allMessages` array passed to `onChange` is the live internal buffer (the
very reference stored in the manager), not a snapshot. -/
theorem c2_exposure_amended (m : RMgr) (s : Store) (l2 : List Msg)
    (h : m.msgs < s.arrays.length) :
    (getMessagesR m s).2 ≠ m.msgs ∧
    Store.get (getMessagesR m s).1 (getMessagesR m s).2 =
      Store.get s m.msgs ∧
    Store.get
      (Store.set (getMessagesR m s).1 (getMessagesR m s).2 l2) m.msgs =
      Store.get s m.msgs ∧
    (∀ v : Msg, (acceptMsg m s v).2.2 = (acceptMsg m s v).1.msgs) := by
  refine ⟨?_, ?_, ?_, ?_⟩
  · simp only [getMessagesR, Store.alloc]
    omega
  · simp only [getMessagesR, Store.alloc, Store.get]
    rw [List.getElem?_concat_length]
    rfl
  · simp only [getMessagesR, Store.alloc, Store.set, Store.get]
    rw [List.getElem?_set_ne (by omega)]
    rw [List.getElem?_append_left h]
  · intro v
    simp only [acceptMsg]
    split
    · rfl
    · rfl

/-- Witness for `c2_exposure_amended` on the concrete one-cell arena. -/
theorem c2_exposure_amended_witness :
    (getMessagesR rm0 rs0).2 ≠ rm0.msgs ∧
    (acceptMsg rm0 rs0 msgB).2.2 = (acceptMsg rm0 rs0 msgB).1.msgs :=
  ⟨(c2_exposure_amended rm0 rs0 [] (by decide)).1,
    (c2_exposure_amended rm0 rs0 [] (by decide)).2.2.2 msgB⟩

end

/-- The acquisition phase preserves the Active-invariant: every failure
leaf lands in `Error`, and the success leaf sets both handles and the
running flag before `Active`. -/
theorem startAcqF_inv (m : Manager) (cb : CB) (env : Env)
    (h : ActiveInv m) : ActiveInv (startAcqF m cb env).1 := by
  cases hr : m.isRunning
  case true => simpa [startAcqF, hr] using h
  case false =>
    cases ht : m.token <;> cases hrf : m.hasRefresh <;>
      cases he : env.refreshRes <;> cases hs : env.subscribeRes <;>
      cases hread : env.readerRes <;>
      simp [startAcqF, hr, ht, hrf, he, hs, hread, handleError, updateState,
        ActiveInv]

/-- One read-loop step preserves the Active-invariant: an error lands in
`Error`, a clean end lands in `Closed`, and a value touches only the
message log. -/
theorem readStepF_inv (m : Manager) (cb : CB) (r : ReadResult)
    (h : ActiveInv m) : ActiveInv (readStepF m cb r).1 := by
  cases r with
  | fail e =>
      cases hr : m.isRunning
      · simpa [readStepF, hr] using h
      · simp [readStepF, hr, handleError, updateState, ActiveInv]
  | done =>
      cases hr : m.isRunning
      · simpa [readStepF, hr] using h
      · simp [readStepF, hr, updateState, ActiveInv]
  | val v =>
      cases hr : m.isRunning
      · simpa [readStepF, hr] using h
      · by_cases hm : topicMismatch m v
        · simpa [readStepF, hr, hm] using h
        · simp [readStepF, hr, hm, ActiveInv]
          intro hx
          exact ⟨(h hx).1, (h hx).2.1⟩

/-- A `stop` whose cancellations succeed lands in `Closed`, so the
Active-invariant holds trivially afterwards. -/
theorem stop_benign_inv (m : Manager) (cb : CB) :
    ActiveInv (stop m cb false false).1 := by
  simp [stop, updateState, ActiveInv]

/-- The claim `C3` - amended: in every state reachable by interleaving
lifecycle calls (taken atomically, i.e. serialized as the spec demands of
callers) and read-loop steps, and in which the cancellations inside
`stop` never throw, `connectionState == Active` implies that the stream
and reader handles are both held and `isRunning == true`. -/
theorem c3_active_invariant_amended (cb : CB) (o : Options) (s : Sys)
    (h : Reach false cb o s) : ActiveInv s.mgr := by
  induction h with
  | init => intro hx; simp [mkManager] at hx
  | startStep s env hprev ih => exact startAcqF_inv s.mgr cb env ih
  | readStep s r hprev hl ih => exact readStepF_inv s.mgr cb r ih
  | stopStep s c1 c2 hprev hc ih =>
      rcases hc with hfalse | ⟨h1, h2⟩
      · exact absurd hfalse (by simp)
      · subst h1
        subst h2
        exact stop_benign_inv s.mgr cb
  | clearStep s hprev ih => exact fun hx => ih hx
  | setTopicStep s t hprev ih => exact fun hx => ih hx
  | setTokenStep s t hprev ih => exact fun hx => ih hx

/-- Witness for `c3_active_invariant_amended` at the reachable state
right after a successful acquisition. -/
theorem c3_active_invariant_amended_witness :
    ActiveInv (applyStart cb0 ⟨mkManager optsB, 0⟩ envOk).mgr :=
  c3_active_invariant_amended cb0 optsB _
    (Reach.startStep ⟨mkManager optsB, 0⟩ envOk Reach.init)

/-- The reachable system state after acquisition. -/
def sysA : Sys := applyStart cb0 ⟨mkManager optsB, 0⟩ envOk

/-- The reachable system state after a `stop` whose reader cancellation
throws, fired on the `Active` system. -/
def sysBroken : Sys := applyStop cb0 sysA true false

/-- The claim `C3` - counterexample: a state reachable by lifecycle
operations and read-loop steps (start, then a stop whose reader
cancellation throws) in which `connectionState == Active` but
`isRunning == false`, refuting the claimed invariant. -/
theorem c3_active_invariant_counterexample :
    Reach true cb0 optsB sysBroken ∧
    sysBroken.mgr.state = SubState.active ∧
    sysBroken.mgr.isRunning = false :=
  ⟨Reach.stopStep sysA true false
      (Reach.startStep ⟨mkManager optsB, 0⟩ envOk Reach.init) (Or.inl rfl),
    by decide, by decide⟩
